import Mathlib

set_option autoImplicit false

/-!
# Verification of the batch-job reconciler (`pkg/operator/resources/job/batchapi/cron.go`)

This file gives a shallow embedding of the reconciler core of the repository
and proves properties of it.  The embedding follows the Go source function by
function:

* `ManageJobResources` — the periodic reconciliation pass (driver),
* `reconcileInProgressJob` — the state-consistency verifier,
* `checkIfJobCompleted` — the completion classifier,
* `investigateJobFailure` — the failure investigator.

Modelling conventions:

* Wall-clock instants and durations are `Int` seconds (Go `time.Time` /
  `time.Duration`).  The Go zero time `time.Time{}` is modelled as `0`.
* External, read-only collaborators of one pass (state store reads, queue
  metrics, batch metrics, spec downloads, pod listings, queue attributes)
  are fields of a `World` record; a fallible call returns `Option`, with
  `none` standing for the error return.
* Side effects (log-stream writes, status persistence, resource deletion)
  are collected as an ordered `List Event` ledger; the writes themselves are
  modelled as always succeeding (the Go code attempts every effect and only
  aggregates the errors, so the attempted effects are what the ledger holds).
* A Go nil-pointer dereference (a panic that aborts the pass) is modelled by
  the `Option` result of the pass: `none` means the pass panicked.
-/

inductive JobCode where
  | enqueuing
  | running
  | succeeded
  | completedWithFailures
  | timedOut
  | enqueueFailed
  | workerOOM
  | workerError
  | unexpectedError
deriving DecidableEq, Repr

def JobCode.isInProgress : JobCode → Bool
  | .enqueuing => true
  | .running => true
  | _ => false

def JobCode.string : JobCode → String
  | .enqueuing => "enqueuing"
  | .running => "running"
  | .succeeded => "succeeded"
  | .completedWithFailures => "completed_with_failures"
  | .timedOut => "timed_out"
  | .enqueueFailed => "enqueue_failed"
  | .workerOOM => "worker_oom"
  | .workerError => "worker_error"
  | .unexpectedError => "unexpected_error"

def livenessFileName : String := "liveness.txt"

structure JobKey where
  apiName : String
  id : String
deriving DecidableEq, Repr

def JobKey.userString (k : JobKey) : String :=
  k.id ++ " of api " ++ k.apiName

structure JobState where
  jobKey : JobKey
  status : JobCode
  lastUpdated : String → Int

structure K8sJobStatus where
  active : Int
  succeeded : Int
  failed : Int
deriving DecidableEq, Repr

structure K8sJob where
  labelApiName : String
  labelJobID : String
  status : K8sJobStatus
deriving DecidableEq, Repr

structure BatchJob where
  workers : Int
  totalBatchCount : Int
  timeout : Option Int
  startTime : Int
deriving DecidableEq, Repr

structure TerminatedState where
  exitCode : Int
  reason : String
deriving DecidableEq, Repr

structure ContainerStatusRec where
  lastTerminationState : Option TerminatedState
  state : Option TerminatedState
deriving DecidableEq, Repr

structure Pod where
  oomKilled : Bool
  podStatus : String
  containerStatuses : List ContainerStatusRec
deriving DecidableEq, Repr

inductive Event where
  | log (jobKey : JobKey) (message : String)
  | setStatus (jobKey : JobKey) (code : JobCode)
  | deleteRuntime (jobKey : JobKey)
  | deleteInProgressFile (jobKey : JobKey)
deriving DecidableEq, Repr

def Event.key : Event → JobKey
  | .log k _ => k
  | .setStatus k _ => k
  | .deleteRuntime k => k
  | .deleteInProgressFile k => k

structure World where
  now : Int
  inProgressJobKeys : List JobKey
  queueURLs : List String
  k8sJobs : List K8sJob
  getJobState : JobKey → Option JobState
  queueIsEmptyOf : String → Option Bool
  batchMetricsOf : JobKey → Option Int
  downloadJobSpecOf : JobKey → Option BatchJob
  podsOf : String → List Pod
  queueCreatedTsOf : String → Option Int
  jobKeyFromQueueURL : String → JobKey
  getJobQueueURL : JobKey → String
  enqueuingLivenessPeriod : Int

structure CronState where
  jobsToDelete : List String
  jobSpecCache : List (String × BatchJob)
deriving DecidableEq, Repr

def doesQueueExistGracePeriod : Int := 30

def enqueuingLivenessBuffer : Int := 30

def k8sJobExistenceGracePeriod : Int := 10

def strAdd (l : List String) (x : String) : List String :=
  if x ∈ l then l else x :: l

def strRemove (l : List String) (x : String) : List String :=
  l.filter (fun y => decide (y ≠ x))

def lookupSpec : List (String × BatchJob) → String → Option BatchJob
  | [], _ => none
  | (k, v) :: rest, id => if k = id then some v else lookupSpec rest id

def cleanupLogMessage : String := "terminating job and cleaning up job resources"

def inconsistentMetricsMessage : String :=
  "unexpected job status because cluster state indicates job has completed but metrics indicate that job is still in progress"

def emptyQueueInconsistencyMessage : String :=
  "unexpected job state; queue is empty but cluster state still indicates that the job is still in progress"

def oomMessage : String :=
  "at least one worker was killed because it ran out of out of memory"

def unknownReasonMessage : String := "workers were killed for unknown reason"

def timeoutMessage (t : Int) : String :=
  "terminating job after exceeding the specified timeout of " ++ toString t ++ " seconds"

def workerTerminationMessage (podStatus : String) (t : TerminatedState) : String :=
  "at least one worker had status " ++ podStatus ++ " and terminated for reason " ++
    t.reason.toLower ++ " (exit_code=" ++ toString t.exitCode ++ ")"

def queueMissingMessage (w : World) (k : JobKey) : String :=
  "terminating job " ++ k.userString ++ "; sqs queue with url " ++
    w.getJobQueueURL k ++ " was not found"

def enqueueFailedMessage (k : JobKey) : String :=
  "terminating job " ++ k.userString ++ "; enqueuing liveness check failed"

def k8sJobMissingMessage (k : JobKey) : String :=
  "terminating job " ++ k.userString ++ "; unable to find kubernetes job"

def containerLogs (jobKey : JobKey) (podStatus : String) :
    List ContainerStatusRec → List Event
  | [] => []
  | cs :: rest =>
    match cs.lastTerminationState with
    | some t =>
        Event.log jobKey (workerTerminationMessage podStatus t) ::
          containerLogs jobKey podStatus rest
    | none =>
        match cs.state with
        | some t =>
            Event.log jobKey (workerTerminationMessage podStatus t) ::
              containerLogs jobKey podStatus rest
        | none => containerLogs jobKey podStatus rest

def investigatePods (jobKey : JobKey) : Bool → List Pod → List Event
  | reasonFound, [] =>
    (if reasonFound then [] else [Event.log jobKey unknownReasonMessage]) ++
      [Event.setStatus jobKey .workerError, Event.deleteRuntime jobKey]
  | reasonFound, pod :: rest =>
    if pod.oomKilled then
      [Event.log jobKey oomMessage, Event.setStatus jobKey .workerOOM,
        Event.deleteRuntime jobKey]
    else
      let evs := containerLogs jobKey pod.podStatus pod.containerStatuses
      evs ++ investigatePods jobKey (reasonFound || !evs.isEmpty) rest

def investigateJobFailure (w : World) (jobKey : JobKey) : List Event :=
  investigatePods jobKey false (w.podsOf jobKey.id)

def checkIfJobCompleted (w : World) (jobKey : JobKey) (queueURL : String)
    (k8sJob? : Option K8sJob) (jobsToDelete : List String) :
    Option (List String × List Event) :=
  match k8sJob? with
  | none => none
  | some kJob =>
    if kJob.status.failed > 0 then
      some (jobsToDelete, investigateJobFailure w jobKey)
    else
      match w.queueIsEmptyOf queueURL with
      | none => some (jobsToDelete, [])
      | some isEmpty =>
        if isEmpty = false then
          if kJob.status.active = 0 then
            if jobKey.id ∈ jobsToDelete then
              some (strRemove jobsToDelete jobKey.id,
                [Event.log jobKey inconsistentMetricsMessage,
                 Event.setStatus jobKey .unexpectedError,
                 Event.deleteRuntime jobKey])
            else
              some (strAdd jobsToDelete jobKey.id, [])
          else
            some (jobsToDelete, [])
        else
          match w.batchMetricsOf jobKey with
          | none => some (jobsToDelete, [])
          | some succeededCount =>
            match w.downloadJobSpecOf jobKey with
            | none => some (jobsToDelete, [])
            | some jobSpec =>
              if jobSpec.workers = kJob.status.succeeded then
                if jobSpec.totalBatchCount = succeededCount then
                  some (strRemove jobsToDelete jobKey.id,
                    [Event.setStatus jobKey .succeeded,
                     Event.deleteRuntime jobKey])
                else if jobKey.id ∈ jobsToDelete then
                  some (strRemove jobsToDelete jobKey.id,
                    [Event.setStatus jobKey .completedWithFailures,
                     Event.deleteRuntime jobKey])
                else
                  some (strAdd jobsToDelete jobKey.id, [])
              else if jobKey.id ∈ jobsToDelete then
                some (strRemove jobsToDelete jobKey.id,
                  [Event.log jobKey emptyQueueInconsistencyMessage,
                   Event.setStatus jobKey .unexpectedError,
                   Event.deleteRuntime jobKey])
              else
                some (strAdd jobsToDelete jobKey.id, [])

def reconcileInProgressJob (w : World) (jobState : JobState)
    (queueURL? : Option String) (k8sJob? : Option K8sJob) : JobCode × String :=
  match queueURL? with
  | none =>
    if w.now - jobState.lastUpdated JobCode.enqueuing.string ≤ doesQueueExistGracePeriod then
      (jobState.status, "")
    else
      (.unexpectedError, queueMissingMessage w jobState.jobKey)
  | some _ =>
    if jobState.status = .enqueuing ∧
        w.now - jobState.lastUpdated livenessFileName ≥
          w.enqueuingLivenessPeriod + enqueuingLivenessBuffer then
      (.enqueueFailed, enqueueFailedMessage jobState.jobKey)
    else if jobState.status = .running then
      if w.now - jobState.lastUpdated JobCode.running.string ≤ k8sJobExistenceGracePeriod then
        (jobState.status, "")
      else
        match k8sJob? with
        | none => (.unexpectedError, k8sJobMissingMessage jobState.jobKey)
        | some _ => (jobState.status, "")
    else
      (jobState.status, "")

def specFromCacheOrDownload (w : World) (st : CronState) (jobKey : JobKey) :
    Option (CronState × BatchJob) :=
  match lookupSpec st.jobSpecCache jobKey.id with
  | some sp => some (st, sp)
  | none =>
    match w.downloadJobSpecOf jobKey with
    | none => none
    | some sp =>
        some ({ st with jobSpecCache := (jobKey.id, sp) :: st.jobSpecCache }, sp)

def processInProgressJob (w : World) (qmap : String → Option String)
    (kmap : String → Option K8sJob) (st : CronState) (jobKey : JobKey) :
    CronState × List Event × Bool :=
  let queueURL? := qmap jobKey.id
  let k8sJob? := kmap jobKey.id
  match w.getJobState jobKey with
  | none =>
    (st, [Event.log jobKey cleanupLogMessage, Event.deleteInProgressFile jobKey,
          Event.deleteRuntime jobKey], false)
  | some jobState =>
    if jobState.status.isInProgress = false then
      (st, [Event.deleteInProgressFile jobKey, Event.deleteRuntime jobKey], false)
    else
      let rec1 := reconcileInProgressJob w jobState queueURL? k8sJob?
      let ev1 := if rec1.1 ≠ jobState.status then
          [Event.log jobKey rec1.2, Event.setStatus jobKey rec1.1]
        else []
      match queueURL? with
      | none => (st, ev1, false)
      | some queueURL =>
        match specFromCacheOrDownload w st jobKey with
        | none =>
          (st, ev1 ++ [Event.log jobKey cleanupLogMessage,
            Event.deleteInProgressFile jobKey, Event.deleteRuntime jobKey], false)
        | some (st1, jobSpec) =>
          let timedOut := match jobSpec.timeout with
            | some t => decide (w.now - jobSpec.startTime > t)
            | none => false
          if timedOut then
            (st1, ev1 ++ [Event.setStatus jobKey .timedOut,
              Event.deleteRuntime jobKey,
              Event.log jobKey (timeoutMessage (jobSpec.timeout.getD 0))], false)
          else if jobState.status = .running then
            match checkIfJobCompleted w jobKey queueURL k8sJob? st1.jobsToDelete with
            | none => (st1, ev1, true)
            | some (jtd, evsC) =>
                ({ st1 with jobsToDelete := jtd }, ev1 ++ evsC, false)
          else
            (st1, ev1, false)

def buildQueueURLMap (w : World) : String → Option String :=
  fun id =>
    (w.queueURLs.filter (fun u => decide ((w.jobKeyFromQueueURL u).id = id))).getLast?

def buildK8sJobMap (jobs : List K8sJob) : String → Option K8sJob :=
  fun label =>
    if jobs.any (fun j => j.labelJobID = label) then jobs.getLast? else none

def queueJobIDs (w : World) : List String :=
  (w.queueURLs.map (fun u => (w.jobKeyFromQueueURL u).id)).dedup

def k8sJobIDs (w : World) : List String :=
  (w.k8sJobs.map K8sJob.labelJobID).dedup

def inProgressIDs (w : World) : List String :=
  (w.inProgressJobKeys.map JobKey.id).dedup

def gcOrphanBatches (kmap : String → Option K8sJob)
    (k8sIDs inProgIDs : List String) : List Event :=
  (k8sIDs.filter (fun id => decide (id ∉ inProgIDs))).filterMap
    (fun id =>
      (kmap id).map (fun kJob =>
        Event.deleteRuntime ⟨kJob.labelApiName, kJob.labelJobID⟩))

def queueCreatedTimestamp (w : World) (url : String) : Int :=
  match w.queueCreatedTsOf url with
  | some t => t
  | none => 0

def gcOrphanQueues (w : World) (qmap : String → Option String)
    (queueIDs k8sIDs inProgIDs : List String) : List Event :=
  (queueIDs.filter (fun id => decide (id ∉ k8sIDs) && decide (id ∉ inProgIDs))).filterMap
    (fun id =>
      match qmap id with
      | none => none
      | some url =>
        if w.now - queueCreatedTimestamp w url ≤ doesQueueExistGracePeriod then none
        else some (Event.deleteRuntime (w.jobKeyFromQueueURL url)))

def processAll (w : World) (qmap : String → Option String)
    (kmap : String → Option K8sJob) :
    CronState → List JobKey → Option (CronState × List Event)
  | st, [] => some (st, [])
  | st, jobKey :: rest =>
    match processInProgressJob w qmap kmap st jobKey with
    | (st1, evs, crashed) =>
      if crashed then none
      else
        match processAll w qmap kmap st1 rest with
        | none => none
        | some (st2, evs2) => some (st2, evs ++ evs2)

def ManageJobResources (w : World) (st : CronState) : Option (CronState × List Event) :=
  let inProgIDs := inProgressIDs w
  let st0 : CronState :=
    { st with jobSpecCache := st.jobSpecCache.filter (fun p => p.1 ∈ inProgIDs) }
  let qmap := buildQueueURLMap w
  let kmap := buildK8sJobMap w.k8sJobs
  match processAll w qmap kmap st0 w.inProgressJobKeys with
  | none => none
  | some (st1, evs1) =>
    let evsA := gcOrphanBatches kmap (k8sJobIDs w) inProgIDs
    let evsB := gcOrphanQueues w qmap (queueJobIDs w) (k8sJobIDs w) inProgIDs
    let st2 : CronState :=
      { st1 with jobsToDelete := st1.jobsToDelete.filter (fun id => id ∈ inProgIDs) }
    some (st2, evs1 ++ evsA ++ evsB)

def A : JobKey := ⟨"api", "a"⟩

def W2 : World := {
  now := 100
  inProgressJobKeys := [A]
  queueURLs := ["qa"]
  k8sJobs := []
  getJobState := fun k => if k = A then some ⟨A, JobCode.running, fun s => if s = "running" then 100 else 0⟩ else none
  queueIsEmptyOf := fun _ => some true
  batchMetricsOf := fun _ => some 0
  downloadJobSpecOf := fun k => if k = A then some ⟨1, 1, none, 0⟩ else none
  podsOf := fun _ => []
  queueCreatedTsOf := fun _ => none
  jobKeyFromQueueURL := fun _ => A
  getJobQueueURL := fun _ => "qa"
  enqueuingLivenessPeriod := 60 }

def KJ1 : K8sJob := ⟨"api", "a", ⟨0, 4, 0⟩⟩

def W1 : World := { W2 with
  batchMetricsOf := fun k => if k = A then some 1000 else none
  downloadJobSpecOf := fun k => if k = A then some ⟨4, 1000, none, 0⟩ else none }

def oomPod : Pod := ⟨true, "Failed", []⟩

def W7 : World := { W2 with podsOf := fun id => if id = "a" then [oomPod] else [] }

def J1 : K8sJob := ⟨"api", "a", ⟨0, 1, 0⟩⟩

def J2 : K8sJob := ⟨"api", "b", ⟨0, 2, 0⟩⟩

def W3 : World := { W2 with
  getJobState := fun k => if k = A then some ⟨A, JobCode.succeeded, fun _ => 0⟩ else none }

def W4 : World := { W1 with
  k8sJobs := [⟨"api", "a", ⟨1, 0, 0⟩⟩]
  batchMetricsOf := fun k => if k = A then some 5 else none
  getJobState := fun k => if k = A then some ⟨A, JobCode.running, fun _ => 0⟩ else none }

def W5 : World := { W1 with k8sJobs := [KJ1] }

def W6 : World := { W2 with
  queueURLs := []
  getJobState := fun k => if k = A then some ⟨A, JobCode.running, fun _ => 0⟩ else none }

def KJF : K8sJob := ⟨"api", "a", ⟨0, 0, 1⟩⟩

def X : JobKey := ⟨"api", "x"⟩

def W8 : World := { W2 with
  inProgressJobKeys := []
  queueURLs := ["qx"]
  jobKeyFromQueueURL := fun u => if u = "qx" then X else A
  queueCreatedTsOf := fun u => if u = "qx" then some 10 else none }

def W8b : World := { W8 with queueCreatedTsOf := fun u => if u = "qx" then some 90 else none }

def W10 : World := { W8 with queueCreatedTsOf := fun _ => none }

def BJ1 : BatchJob := ⟨4, 1000, none, 0⟩

def EV6 : List Event :=
  [Event.log A (queueMissingMessage W6 A), Event.setStatus A JobCode.unexpectedError]

theorem mem_mem_sublist {α : Type} {a b : α} {l1 l2 : List α}
    (h1 : a ∈ l1) (h2 : b ∈ l2) : List.Sublist [a, b] (l1 ++ l2) :=
  List.Sublist.append (List.singleton_sublist.mpr h1) (List.singleton_sublist.mpr h2)

theorem containerLogs_shape {k : JobKey} {ps : String} {css : List ContainerStatusRec}
    {e : Event} (h : e ∈ containerLogs k ps css) : ∃ m, e = Event.log k m := by
  induction css with
  | nil => simp [containerLogs] at h
  | cons cs rest ih =>
    unfold containerLogs at h
    rcases h1 : cs.lastTerminationState with _ | t
    · rw [h1] at h
      rcases h2 : cs.state with _ | t
      · rw [h2] at h; exact ih h
      · rw [h2] at h
        rcases List.mem_cons.mp h with h3 | h3
        · exact ⟨_, h3⟩
        · exact ih h3
    · rw [h1] at h
      rcases List.mem_cons.mp h with h3 | h3
      · exact ⟨_, h3⟩
      · exact ih h3

theorem investigatePods_codes {k : JobKey} {f : Bool} {pods : List Pod} {c : JobCode}
    (h : Event.setStatus k c ∈ investigatePods k f pods) :
    c = JobCode.workerOOM ∨ c = JobCode.workerError := by
  induction pods generalizing f with
  | nil =>
    unfold investigatePods at h
    rcases f with _ | _ <;> simp at h <;> simp [h]
  | cons pod rest ih =>
    unfold investigatePods at h
    by_cases ho : pod.oomKilled = true
    · rw [if_pos ho] at h
      simp at h
      simp [h]
    · rw [if_neg ho] at h
      rcases List.mem_append.mp h with h1 | h1
      · rcases containerLogs_shape h1 with ⟨m, hm⟩; cases hm
      · exact ih h1

theorem investigatePods_nil (k : JobKey) (f : Bool) :
    investigatePods k f [] =
      (if f then [] else [Event.log k unknownReasonMessage]) ++
        [Event.setStatus k JobCode.workerError, Event.deleteRuntime k] := rfl

theorem investigatePods_cons_oom (k : JobKey) (f : Bool) (pod : Pod) (rest : List Pod)
    (ho : pod.oomKilled = true) :
    investigatePods k f (pod :: rest) =
      [Event.log k oomMessage, Event.setStatus k JobCode.workerOOM,
        Event.deleteRuntime k] := by
  unfold investigatePods
  rw [if_pos ho]

theorem investigatePods_cons_not_oom (k : JobKey) (f : Bool) (pod : Pod) (rest : List Pod)
    (ho : ¬pod.oomKilled = true) :
    investigatePods k f (pod :: rest) =
      containerLogs k pod.podStatus pod.containerStatuses ++
        investigatePods k
          (f || !(containerLogs k pod.podStatus pod.containerStatuses).isEmpty) rest := by
  simp only [investigatePods]
  rw [if_neg ho]

theorem investigatePods_oom_log {k : JobKey} {f : Bool} {pods : List Pod}
    (h : Event.setStatus k JobCode.workerOOM ∈ investigatePods k f pods) :
    ∃ m, List.Sublist [Event.log k m, Event.setStatus k JobCode.workerOOM]
      (investigatePods k f pods) := by
  induction pods generalizing f with
  | nil =>
    rw [investigatePods_nil] at h
    rcases f with _ | _ <;> simp at h
  | cons pod rest ih =>
    by_cases ho : pod.oomKilled = true
    · rw [investigatePods_cons_oom k f pod rest ho]
      exact ⟨oomMessage, List.sublist_append_left _ [Event.deleteRuntime k]⟩
    · rw [investigatePods_cons_not_oom k f pod rest ho] at h ⊢
      rcases List.mem_append.mp h with h1 | h1
      · rcases containerLogs_shape h1 with ⟨m, hm⟩; cases hm
      · rcases ih h1 with ⟨m, hm⟩
        exact ⟨m, hm.trans (List.sublist_append_right _ _)⟩

theorem investigatePods_workerError_log {k : JobKey} {pods : List Pod}
    (h : Event.setStatus k JobCode.workerError ∈ investigatePods k false pods) :
    ∃ m, List.Sublist [Event.log k m, Event.setStatus k JobCode.workerError]
      (investigatePods k false pods) := by
  induction pods with
  | nil =>
    refine ⟨unknownReasonMessage, ?_⟩
    rw [investigatePods_nil]
    simp
  | cons pod rest ih =>
    by_cases ho : pod.oomKilled = true
    · rw [investigatePods_cons_oom k false pod rest ho] at h
      simp at h
    · rw [investigatePods_cons_not_oom k false pod rest ho] at h ⊢
      rcases List.mem_append.mp h with h1 | h1
      · rcases containerLogs_shape h1 with ⟨m, hm⟩; cases hm
      · rcases hcl : containerLogs k pod.podStatus pod.containerStatuses with _ | ⟨e0, cltail⟩
        · rw [hcl] at h1
          simp only [List.isEmpty_nil, Bool.not_true, Bool.or_false] at h1
          simp only [List.nil_append]
          rcases ih h1 with ⟨m, hm⟩
          refine ⟨m, ?_⟩
          simpa using hm
        · have he0 : ∃ m, e0 = Event.log k m := by
            refine @containerLogs_shape k pod.podStatus pod.containerStatuses e0 ?_
            rw [hcl]
            exact List.mem_cons_self _ _
          rcases he0 with ⟨m0, hm0⟩
          refine ⟨m0, ?_⟩
          rw [hcl] at h1
          refine mem_mem_sublist ?_ h1
          rw [hm0]
          exact List.mem_cons_self _ _

theorem checkIfJobCompleted_nilJob (w : World) (k : JobKey) (u : String)
    (jtd : List String) : checkIfJobCompleted w k u none jtd = none := rfl

theorem checkIfJobCompleted_shape {w : World} {k : JobKey} {u : String}
    {kj? : Option K8sJob} {jtd jtd' : List String} {evs : List Event}
    (h : checkIfJobCompleted w k u kj? jtd = some (jtd', evs)) :
    evs = [] ∨
    evs = investigateJobFailure w k ∨
    evs = [Event.log k inconsistentMetricsMessage,
           Event.setStatus k JobCode.unexpectedError, Event.deleteRuntime k] ∨
    evs = [Event.setStatus k JobCode.succeeded, Event.deleteRuntime k] ∨
    evs = [Event.setStatus k JobCode.completedWithFailures, Event.deleteRuntime k] ∨
    evs = [Event.log k emptyQueueInconsistencyMessage,
           Event.setStatus k JobCode.unexpectedError, Event.deleteRuntime k] := by
  unfold checkIfJobCompleted at h
  repeat' split at h
  all_goals first
    | exact Option.noConfusion h
    | (injection h with h2; injection h2 with ha hb; subst hb; tauto)

/-- C1 (amended): for a Running job with the queue observed empty, batch.Failed = 0, batch.Succeeded = Workers and BatchMetrics.Succeeded = TotalBatchCount, with the ID not in DeferredDelete, the first invocation of the completion classifier already persists Succeeded and deletes the runtime resources; no deferral cycle happens. -/
theorem C1_amended_immediate_success {w : World} {k : JobKey} {u : String} {kJob : K8sJob}
    {jtd : List String} {succeededCount : Int} {sp : BatchJob}
    (hf : kJob.status.failed = 0)
    (hq : w.queueIsEmptyOf u = some true)
    (hm : w.batchMetricsOf k = some succeededCount)
    (hs : w.downloadJobSpecOf k = some sp)
    (hw : sp.workers = kJob.status.succeeded)
    (ht : sp.totalBatchCount = succeededCount)
    (_hnot : k.id ∉ jtd) :
    checkIfJobCompleted w k u (some kJob) jtd =
      some (strRemove jtd k.id,
        [Event.setStatus k JobCode.succeeded, Event.deleteRuntime k]) := by
  unfold checkIfJobCompleted
  rw [hq, hm, hs]
  simp [hf, hw, ht]

theorem containerLogs_key {k : JobKey} {ps : String} {css : List ContainerStatusRec}
    {e : Event} (h : e ∈ containerLogs k ps css) : e.key = k := by
  rcases containerLogs_shape h with ⟨m, hm⟩
  rw [hm]
  rfl

theorem investigatePods_key {k : JobKey} {e : Event} :
    ∀ {f : Bool} {pods : List Pod}, e ∈ investigatePods k f pods → e.key = k := by
  intro f pods
  induction pods generalizing f with
  | nil =>
    intro h
    rw [investigatePods_nil] at h
    rcases f with _ | _
    · simp at h
      rcases h with h | h | h <;> subst h <;> rfl
    · simp at h
      rcases h with h | h <;> subst h <;> rfl
  | cons pod rest ih =>
    intro h
    by_cases ho : pod.oomKilled = true
    · rw [investigatePods_cons_oom k f pod rest ho] at h
      simp at h
      rcases h with h | h | h <;> subst h <;> rfl
    · rw [investigatePods_cons_not_oom k f pod rest ho] at h
      rcases List.mem_append.mp h with h1 | h1
      · exact containerLogs_key h1
      · exact ih h1

theorem checkIfJobCompleted_key {w : World} {k : JobKey} {u : String}
    {kj? : Option K8sJob} {jtd jtd' : List String} {evs : List Event} {e : Event}
    (h : checkIfJobCompleted w k u kj? jtd = some (jtd', evs)) (he : e ∈ evs) :
    e.key = k := by
  rcases checkIfJobCompleted_shape h with h1 | h1 | h1 | h1 | h1 | h1 <;> rw [h1] at he
  · simp at he
  · exact investigatePods_key he
  · simp at he
    rcases he with he | he | he <;> subst he <;> rfl
  · simp at he
    rcases he with he | he <;> subst he <;> rfl
  · simp at he
    rcases he with he | he <;> subst he <;> rfl
  · simp at he
    rcases he with he | he | he <;> subst he <;> rfl

theorem processInProgressJob_key {w : World} {q : String → Option String}
    {m : String → Option K8sJob} {st : CronState} {k : JobKey}
    {st2 : CronState} {evs : List Event} {cr : Bool} {e : Event}
    (h : processInProgressJob w q m st k = (st2, evs, cr)) (he : e ∈ evs) :
    e.key = k := by
  simp only [processInProgressJob] at h
  repeat' split at h
  all_goals try (injection h with ha hbc; injection hbc with hb hc; subst hb)
  · simp at he
    rcases he with rfl | rfl | rfl <;> rfl
  · simp at he
    rcases he with rfl | rfl <;> rfl
  · simp at he
    rcases he with rfl | rfl <;> rfl
  · simp at he
  · simp at he
    rcases he with rfl | rfl | rfl | rfl | rfl <;> rfl
  · simp at he
    rcases he with rfl | rfl | rfl <;> rfl
  · simp at he
    rcases he with rfl | rfl | rfl | rfl | rfl <;> rfl
  · simp at he
    rcases he with rfl | rfl | rfl <;> rfl
  · simp at he
    rcases he with rfl | rfl <;> rfl
  · simp at he
  · rcases List.mem_append.mp he with he1 | he1
    · simp at he1
      rcases he1 with rfl | rfl <;> rfl
    · exact checkIfJobCompleted_key (by assumption) he1
  · simp only [List.nil_append] at he
    exact checkIfJobCompleted_key (by assumption) he
  · simp at he
    rcases he with rfl | rfl <;> rfl
  · simp at he

theorem processInProgressJob_terminal {w : World} {q : String → Option String}
    {m : String → Option K8sJob} {st : CronState} {k : JobKey} {js : JobState}
    (hjs : w.getJobState k = some js) (hterm : js.status.isInProgress = false) :
    processInProgressJob w q m st k =
      (st, [Event.deleteInProgressFile k, Event.deleteRuntime k], false) := by
  simp only [processInProgressJob, hjs]
  rw [if_pos hterm]

theorem processAll_origin {w : World} {q : String → Option String}
    {m : String → Option K8sJob} {e : Event} :
    ∀ {jobs : List JobKey} {st st' : CronState} {evs : List Event},
      processAll w q m st jobs = some (st', evs) → e ∈ evs →
      ∃ stMid j st2 evs2 cr, j ∈ jobs ∧
        processInProgressJob w q m stMid j = (st2, evs2, cr) ∧ e ∈ evs2 := by
  intro jobs
  induction jobs with
  | nil =>
    intro st st' evs h he
    simp only [processAll, Option.some.injEq] at h
    injection h with h1 h2
    rw [← h2] at he
    simp at he
  | cons j rest ih =>
    intro st st' evs h he
    rcases hp : processInProgressJob w q m st j with ⟨st1, evsJ, cr⟩
    simp only [processAll, hp] at h
    split at h
    · exact Option.noConfusion h
    · rcases hr : processAll w q m st1 rest with _ | ⟨st2, evs2⟩
      · rw [hr] at h
        exact Option.noConfusion h
      · rw [hr] at h
        injection h with h1
        injection h1 with ha hb
        rw [← hb] at he
        rcases List.mem_append.mp he with he1 | he1
        · exact ⟨st, j, st1, evsJ, cr, List.mem_cons_self _ _, hp, he1⟩
        · rcases ih hr he1 with ⟨stMid, j2, stA, evsA, crA, hj2, hpj, hee⟩
          exact ⟨stMid, j2, stA, evsA, crA, List.mem_cons_of_mem _ hj2, hpj, hee⟩

theorem processAll_segment {w : World} {q : String → Option String}
    {m : String → Option K8sJob} {j : JobKey} :
    ∀ {jobs : List JobKey} {st st' : CronState} {evs : List Event},
      processAll w q m st jobs = some (st', evs) → j ∈ jobs →
      ∃ stMid st2 evs2 cr, processInProgressJob w q m stMid j = (st2, evs2, cr) ∧
        ∀ e ∈ evs2, e ∈ evs := by
  intro jobs
  induction jobs with
  | nil =>
    intro st st' evs _ hj
    simp at hj
  | cons j0 rest ih =>
    intro st st' evs h hj
    rcases hp : processInProgressJob w q m st j0 with ⟨st1, evsJ, cr⟩
    simp only [processAll, hp] at h
    split at h
    · exact Option.noConfusion h
    · rcases hr : processAll w q m st1 rest with _ | ⟨st2, evs2⟩
      · rw [hr] at h
        exact Option.noConfusion h
      · rw [hr] at h
        injection h with h1
        injection h1 with ha hb
        rcases List.mem_cons.mp hj with hj1 | hj1
        · subst hj1
          refine ⟨st, st1, evsJ, cr, hp, ?_⟩
          intro e hee
          rw [← hb]
          exact List.mem_append.mpr (Or.inl hee)
        · rcases ih hr hj1 with ⟨stMid, stA, evsA, crA, hpj, hsub⟩
          refine ⟨stMid, stA, evsA, crA, hpj, ?_⟩
          intro e hee
          rw [← hb]
          exact List.mem_append.mpr (Or.inr (hsub e hee))

theorem gcOrphanBatches_all_delete {m : String → Option K8sJob}
    {k8sIDs inProgIDs : List String} {e : Event}
    (h : e ∈ gcOrphanBatches m k8sIDs inProgIDs) :
    ∃ kk, e = Event.deleteRuntime kk := by
  rcases List.mem_filterMap.mp h with ⟨id, _, hmap⟩
  rcases hm : m id with _ | kJob
  · rw [hm] at hmap
    exact Option.noConfusion hmap
  · rw [hm] at hmap
    injection hmap with h1
    exact ⟨_, h1.symm⟩

theorem gcOrphanBatches_empty {m : String → Option K8sJob}
    {k8sIDs inProgIDs : List String}
    (h : ∀ x ∈ k8sIDs, x ∈ inProgIDs) :
    gcOrphanBatches m k8sIDs inProgIDs = [] := by
  unfold gcOrphanBatches
  have : k8sIDs.filter (fun id => decide (id ∉ inProgIDs)) = [] := by
    rw [List.filter_eq_nil_iff]
    intro a ha
    simp [h a ha]
  rw [this]
  rfl

theorem buildK8sJobMap_mem {jobs : List K8sJob} {id : String} {kJob : K8sJob}
    (h : buildK8sJobMap jobs id = some kJob) : kJob ∈ jobs := by
  unfold buildK8sJobMap at h
  split at h
  · exact List.mem_of_mem_getLast? (by rw [h]; rfl)
  · exact Option.noConfusion h

theorem gcOrphanBatches_key {jobs : List K8sJob}
    {k8sIDs inProgIDs : List String} {e : Event}
    (h : e ∈ gcOrphanBatches (buildK8sJobMap jobs) k8sIDs inProgIDs) :
    ∃ kJob, kJob ∈ jobs ∧
      e = Event.deleteRuntime ⟨kJob.labelApiName, kJob.labelJobID⟩ := by
  rcases List.mem_filterMap.mp h with ⟨id, _, hmap⟩
  rcases hm : buildK8sJobMap jobs id with _ | kJob
  · rw [hm] at hmap
    exact Option.noConfusion hmap
  · rw [hm] at hmap
    injection hmap with h1
    exact ⟨kJob, buildK8sJobMap_mem hm, h1.symm⟩

theorem buildQueueURLMap_some {w : World} {id url : String}
    (h : buildQueueURLMap w id = some url) :
    url ∈ w.queueURLs ∧ (w.jobKeyFromQueueURL url).id = id := by
  unfold buildQueueURLMap at h
  have hmem : url ∈ w.queueURLs.filter (fun u => decide ((w.jobKeyFromQueueURL u).id = id)) :=
    List.mem_of_mem_getLast? (by rw [h]; rfl)
  rcases List.mem_filter.mp hmem with ⟨h1, h2⟩
  exact ⟨h1, by simpa using h2⟩

theorem gcOrphanQueues_shape {w : World} {qmap : String → Option String}
    {queueIDs k8sIDs inProgIDs : List String} {e : Event}
    (h : e ∈ gcOrphanQueues w qmap queueIDs k8sIDs inProgIDs) :
    ∃ id url, id ∈ queueIDs ∧ id ∉ k8sIDs ∧ id ∉ inProgIDs ∧ qmap id = some url ∧
      ¬(w.now - queueCreatedTimestamp w url ≤ doesQueueExistGracePeriod) ∧
      e = Event.deleteRuntime (w.jobKeyFromQueueURL url) := by
  rcases List.mem_filterMap.mp h with ⟨id, hid, hmap⟩
  rcases List.mem_filter.mp hid with ⟨h1, h2⟩
  simp only [Bool.and_eq_true, decide_eq_true_eq] at h2
  rcases hq : qmap id with _ | url
  · simp only [hq] at hmap
    exact Option.noConfusion hmap
  · simp only [hq] at hmap
    split at hmap
    · exact Option.noConfusion hmap
    · injection hmap with h3
      exact ⟨id, url, h1, h2.1, h2.2, hq, by assumption, h3.symm⟩

theorem gcOrphanQueues_mem {w : World} {qmap : String → Option String}
    {queueIDs k8sIDs inProgIDs : List String} {id url : String}
    (hid : id ∈ queueIDs) (hk : id ∉ k8sIDs) (hi : id ∉ inProgIDs)
    (hq : qmap id = some url)
    (hts : ¬(w.now - queueCreatedTimestamp w url ≤ doesQueueExistGracePeriod)) :
    Event.deleteRuntime (w.jobKeyFromQueueURL url) ∈
      gcOrphanQueues w qmap queueIDs k8sIDs inProgIDs := by
  refine List.mem_filterMap.mpr ⟨id, ?_, ?_⟩
  · refine List.mem_filter.mpr ⟨hid, ?_⟩
    simp [hk, hi]
  · simp only [hq]
    rw [if_neg hts]

theorem reconcile_result {w : World} {js : JobState} {qu : Option String}
    {kj : Option K8sJob} :
    (reconcileInProgressJob w js qu kj).1 = js.status ∨
    (reconcileInProgressJob w js qu kj).1 = JobCode.unexpectedError ∨
    (reconcileInProgressJob w js qu kj).1 = JobCode.enqueueFailed := by
  unfold reconcileInProgressJob
  repeat' split
  all_goals simp

theorem reconcile_running_intact {w : World} {js : JobState} {u : String}
    {kj : K8sJob} (hr : js.status = JobCode.running) :
    reconcileInProgressJob w js (some u) (some kj) = (js.status, "") := by
  simp only [reconcileInProgressJob]
  rw [if_neg, if_pos hr]
  · split <;> rfl
  · rintro ⟨h1, _⟩
    rw [hr] at h1
    exact JobCode.noConfusion h1

theorem manage_decomp {w : World} {st st' : CronState} {evs : List Event}
    (h : ManageJobResources w st = some (st', evs)) :
    ∃ st1 evs1,
      processAll w (buildQueueURLMap w) (buildK8sJobMap w.k8sJobs)
        { st with jobSpecCache :=
            st.jobSpecCache.filter (fun p => p.1 ∈ inProgressIDs w) }
        w.inProgressJobKeys = some (st1, evs1) ∧
      st' = { st1 with jobsToDelete :=
          st1.jobsToDelete.filter (fun id => id ∈ inProgressIDs w) } ∧
      evs = evs1 ++
        gcOrphanBatches (buildK8sJobMap w.k8sJobs) (k8sJobIDs w) (inProgressIDs w) ++
        gcOrphanQueues w (buildQueueURLMap w) (queueJobIDs w) (k8sJobIDs w)
          (inProgressIDs w) := by
  simp only [ManageJobResources] at h
  rcases hr : processAll w (buildQueueURLMap w) (buildK8sJobMap w.k8sJobs)
      { st with jobSpecCache :=
          st.jobSpecCache.filter (fun p => p.1 ∈ inProgressIDs w) }
      w.inProgressJobKeys with _ | ⟨st1, evs1⟩
  · rw [hr] at h
    exact Option.noConfusion h
  · rw [hr] at h
    injection h with h1
    injection h1 with ha hb
    exact ⟨st1, evs1, rfl, ha.symm, hb.symm⟩

/-- C3: if a job whose stored status is terminal is handled by a pass, that pass writes no status for the job at all, and if the job is listed in progress the pass performs the best-effort deletion of its in-progress marker and runtime resources. -/
theorem C3_terminal_status_frozen {w : World} {st st' : CronState} {evs : List Event}
    {k : JobKey} {js : JobState}
    (hpass : ManageJobResources w st = some (st', evs))
    (hjs : w.getJobState k = some js)
    (hterm : js.status.isInProgress = false) :
    (∀ c, Event.setStatus k c ∉ evs) ∧
    (k ∈ w.inProgressJobKeys →
      Event.deleteInProgressFile k ∈ evs ∧ Event.deleteRuntime k ∈ evs) := by
  rcases manage_decomp hpass with ⟨st1, evs1, hproc, hst, hevs⟩
  constructor
  · intro c hmem
    rw [hevs] at hmem
    rcases List.mem_append.mp hmem with h1 | h1
    · rcases List.mem_append.mp h1 with h2 | h2
      · rcases processAll_origin hproc h2 with ⟨stMid, j, st2, evs2, cr, hj, hpj, he2⟩
        have hkey : (Event.setStatus k c).key = j := processInProgressJob_key hpj he2
        have hkj : j = k := by
          rw [← hkey]
          rfl
        subst hkj
        rw [processInProgressJob_terminal hjs hterm] at hpj
        injection hpj with h3 h4
        injection h4 with h5 h6
        rw [← h5] at he2
        simp at he2
      · rcases gcOrphanBatches_all_delete h2 with ⟨kk, hkk⟩
        exact Event.noConfusion hkk
    · rcases gcOrphanQueues_shape h1 with ⟨id, url, _, _, _, _, _, hkk⟩
      exact Event.noConfusion hkk
  · intro hk
    rcases processAll_segment hproc hk with ⟨stMid, st2, evs2, cr, hpj, hsub⟩
    rw [processInProgressJob_terminal hjs hterm] at hpj
    injection hpj with h3 h4
    injection h4 with h5 h6
    constructor
    · rw [hevs]
      refine List.mem_append.mpr (Or.inl (List.mem_append.mpr (Or.inl ?_)))
      refine hsub _ ?_
      rw [← h5]
      simp
    · rw [hevs]
      refine List.mem_append.mpr (Or.inl (List.mem_append.mpr (Or.inl ?_)))
      refine hsub _ ?_
      rw [← h5]
      simp

/-- C4: after every completed reconciliation pass, every ID remaining in the DeferredDelete set is the ID of a job key that was in the InProgress view loaded at the start of that pass. -/
theorem C4_deferred_subset_inprogress {w : World} {st st' : CronState} {evs : List Event}
    (hpass : ManageJobResources w st = some (st', evs)) :
    ∀ id ∈ st'.jobsToDelete, id ∈ w.inProgressJobKeys.map JobKey.id := by
  rcases manage_decomp hpass with ⟨st1, evs1, hproc, hst, hevs⟩
  intro id hid
  rw [hst] at hid
  simp only [List.mem_filter, decide_eq_true_eq] at hid
  have : id ∈ inProgressIDs w := hid.2
  unfold inProgressIDs at this
  exact List.mem_dedup.mp this

theorem sublist_13_of_123 {α : Type} (a b c : α) :
    List.Sublist [a, c] [a, b, c] :=
  List.Sublist.cons₂ a (List.Sublist.cons b (List.Sublist.refl [c]))

theorem sublist_12_of_123 {α : Type} (a b c : α) :
    List.Sublist [a, b] [a, b, c] :=
  List.Sublist.cons₂ a (List.Sublist.cons₂ b (List.nil_sublist [c]))

theorem checkIfJobCompleted_c5 {w : World} {k : JobKey} {u : String}
    {kj? : Option K8sJob} {jtd jtd' : List String} {evs : List Event}
    (h : checkIfJobCompleted w k u kj? jtd = some (jtd', evs)) :
    (∀ c, (c = JobCode.enqueueFailed ∨ c = JobCode.workerOOM ∨
      c = JobCode.workerError ∨ c = JobCode.unexpectedError) →
      Event.setStatus k c ∈ evs →
      ∃ m, List.Sublist [Event.log k m, Event.setStatus k c] evs) ∧
    (∀ c, (c = JobCode.succeeded ∨ c = JobCode.completedWithFailures) →
      Event.setStatus k c ∈ evs → ∀ m, Event.log k m ∉ evs) ∧
    (Event.setStatus k JobCode.timedOut ∉ evs) := by
  rcases checkIfJobCompleted_shape h with h1 | h1 | h1 | h1 | h1 | h1 <;> subst h1
  · exact ⟨fun c hc hm => absurd hm (by simp),
      fun c hc hm => absurd hm (by simp), by simp⟩
  · refine ⟨?_, ?_, ?_⟩
    · intro c hc hm
      rcases investigatePods_codes hm with hcode | hcode <;> subst hcode
      · rcases investigatePods_oom_log hm with ⟨m, hsub⟩
        exact ⟨m, hsub⟩
      · rcases investigatePods_workerError_log hm with ⟨m, hsub⟩
        exact ⟨m, hsub⟩
    · intro c hc hm
      rcases investigatePods_codes hm with hcode | hcode <;>
        rcases hc with hc | hc <;> subst hc <;> exact JobCode.noConfusion hcode
    · intro hm
      rcases investigatePods_codes hm with hcode | hcode <;> exact JobCode.noConfusion hcode
  · refine ⟨?_, ?_, ?_⟩
    · intro c hc hm
      simp at hm
      subst hm
      exact ⟨inconsistentMetricsMessage, sublist_12_of_123 _ _ _⟩
    · intro c hc hm
      simp at hm
      subst hm
      rcases hc with hc | hc <;> exact JobCode.noConfusion hc
    · intro hm
      simp at hm
  · refine ⟨?_, ?_, ?_⟩
    · intro c hc hm
      simp at hm
      subst hm
      rcases hc with hc | hc | hc | hc <;> exact JobCode.noConfusion hc
    · intro c hc hm m hlog
      simp at hlog
    · intro hm
      simp at hm
  · refine ⟨?_, ?_, ?_⟩
    · intro c hc hm
      simp at hm
      subst hm
      rcases hc with hc | hc | hc | hc <;> exact JobCode.noConfusion hc
    · intro c hc hm m hlog
      simp at hlog
    · intro hm
      simp at hm
  · refine ⟨?_, ?_, ?_⟩
    · intro c hc hm
      simp at hm
      subst hm
      exact ⟨emptyQueueInconsistencyMessage, sublist_12_of_123 _ _ _⟩
    · intro c hc hm
      simp at hm
      subst hm
      rcases hc with hc | hc <;> exact JobCode.noConfusion hc
    · intro hm
      simp at hm

theorem ev1_c5 {w : World} {js : JobState} {k : JobKey} {qu : Option String}
    {kj : Option K8sJob} {suffix : List Event}
    (hne : (reconcileInProgressJob w js qu kj).1 ≠ js.status)
    (hsuf : ∀ c, Event.setStatus k c ∉ suffix) :
    (∀ c, (c = JobCode.enqueueFailed ∨ c = JobCode.workerOOM ∨
      c = JobCode.workerError ∨ c = JobCode.unexpectedError) →
      Event.setStatus k c ∈
        ([Event.log k (reconcileInProgressJob w js qu kj).2,
          Event.setStatus k (reconcileInProgressJob w js qu kj).1] ++ suffix) →
      ∃ m, List.Sublist [Event.log k m, Event.setStatus k c]
        ([Event.log k (reconcileInProgressJob w js qu kj).2,
          Event.setStatus k (reconcileInProgressJob w js qu kj).1] ++ suffix)) ∧
    (∀ c, (c = JobCode.succeeded ∨ c = JobCode.completedWithFailures) →
      Event.setStatus k c ∈
        ([Event.log k (reconcileInProgressJob w js qu kj).2,
          Event.setStatus k (reconcileInProgressJob w js qu kj).1] ++ suffix) →
      ∀ m, Event.log k m ∉
        ([Event.log k (reconcileInProgressJob w js qu kj).2,
          Event.setStatus k (reconcileInProgressJob w js qu kj).1] ++ suffix)) ∧
    (Event.setStatus k JobCode.timedOut ∈
        ([Event.log k (reconcileInProgressJob w js qu kj).2,
          Event.setStatus k (reconcileInProgressJob w js qu kj).1] ++ suffix) →
      ∃ m, List.Sublist [Event.setStatus k JobCode.timedOut, Event.log k m]
        ([Event.log k (reconcileInProgressJob w js qu kj).2,
          Event.setStatus k (reconcileInProgressJob w js qu kj).1] ++ suffix)) := by
  rcases @reconcile_result w js qu kj with hr | hr
  · exact absurd hr hne
  · have hmemc : ∀ c, Event.setStatus k c ∈
        ([Event.log k (reconcileInProgressJob w js qu kj).2,
          Event.setStatus k (reconcileInProgressJob w js qu kj).1] ++ suffix) →
        c = (reconcileInProgressJob w js qu kj).1 := by
      intro c hm
      rcases List.mem_append.mp hm with h1 | h1
      · simp at h1
        exact h1
      · exact absurd h1 (hsuf c)
    refine ⟨?_, ?_, ?_⟩
    · intro c hc hm
      have hceq := hmemc c hm
      subst hceq
      exact ⟨(reconcileInProgressJob w js qu kj).2,
        List.sublist_append_left _ suffix⟩
    · intro c hc hm
      have hceq := hmemc c hm
      rcases hr with hr | hr <;> rw [hr] at hceq <;>
        rcases hc with hc | hc <;> subst hc <;> exact JobCode.noConfusion hceq
    · intro hm
      have hceq := hmemc _ hm
      rcases hr with hr | hr <;> rw [hr] at hceq <;> exact JobCode.noConfusion hceq

theorem ev1_c5_timeout {w : World} {js : JobState} {k : JobKey} {qu : Option String}
    {kj : Option K8sJob} {t : Int}
    (hne : (reconcileInProgressJob w js qu kj).1 ≠ js.status) :
    (∀ c, (c = JobCode.enqueueFailed ∨ c = JobCode.workerOOM ∨
      c = JobCode.workerError ∨ c = JobCode.unexpectedError) →
      Event.setStatus k c ∈
        ([Event.log k (reconcileInProgressJob w js qu kj).2,
          Event.setStatus k (reconcileInProgressJob w js qu kj).1] ++
         [Event.setStatus k JobCode.timedOut, Event.deleteRuntime k,
          Event.log k (timeoutMessage t)]) →
      ∃ m, List.Sublist [Event.log k m, Event.setStatus k c]
        ([Event.log k (reconcileInProgressJob w js qu kj).2,
          Event.setStatus k (reconcileInProgressJob w js qu kj).1] ++
         [Event.setStatus k JobCode.timedOut, Event.deleteRuntime k,
          Event.log k (timeoutMessage t)])) ∧
    (∀ c, (c = JobCode.succeeded ∨ c = JobCode.completedWithFailures) →
      Event.setStatus k c ∈
        ([Event.log k (reconcileInProgressJob w js qu kj).2,
          Event.setStatus k (reconcileInProgressJob w js qu kj).1] ++
         [Event.setStatus k JobCode.timedOut, Event.deleteRuntime k,
          Event.log k (timeoutMessage t)]) →
      ∀ m, Event.log k m ∉
        ([Event.log k (reconcileInProgressJob w js qu kj).2,
          Event.setStatus k (reconcileInProgressJob w js qu kj).1] ++
         [Event.setStatus k JobCode.timedOut, Event.deleteRuntime k,
          Event.log k (timeoutMessage t)])) ∧
    (Event.setStatus k JobCode.timedOut ∈
        ([Event.log k (reconcileInProgressJob w js qu kj).2,
          Event.setStatus k (reconcileInProgressJob w js qu kj).1] ++
         [Event.setStatus k JobCode.timedOut, Event.deleteRuntime k,
          Event.log k (timeoutMessage t)]) →
      ∃ m, List.Sublist [Event.setStatus k JobCode.timedOut, Event.log k m]
        ([Event.log k (reconcileInProgressJob w js qu kj).2,
          Event.setStatus k (reconcileInProgressJob w js qu kj).1] ++
         [Event.setStatus k JobCode.timedOut, Event.deleteRuntime k,
          Event.log k (timeoutMessage t)])) := by
  rcases @reconcile_result w js qu kj with hr | hr
  · exact absurd hr hne
  · refine ⟨?_, ?_, ?_⟩
    · intro c hc hm
      rcases List.mem_append.mp hm with h1 | h1
      · simp at h1
        subst h1
        exact ⟨(reconcileInProgressJob w js qu kj).2, List.sublist_append_left _ _⟩
      · simp at h1
        subst h1
        rcases hc with hc | hc | hc | hc <;> exact JobCode.noConfusion hc
    · intro c hc hm
      rcases List.mem_append.mp hm with h1 | h1
      · simp at h1
        subst h1
        rcases hr with hr | hr <;> rw [hr] at hc <;>
          rcases hc with hc | hc <;> exact JobCode.noConfusion hc
      · simp at h1
        subst h1
        rcases hc with hc | hc <;> exact JobCode.noConfusion hc
    · intro hm
      refine ⟨timeoutMessage t, ?_⟩
      exact (sublist_13_of_123 _ _ _).trans (List.sublist_append_right _ _)

/-- C5 (amended): within one job handling, a terminal write of EnqueueFailed, WorkerOOM, WorkerError or UnexpectedError is preceded by at least one explanatory log line for the job; Succeeded and CompletedWithFailures are persisted with no log line for the job in the whole handling; a Timed-Out write has its explanatory line after the status write. -/
theorem C5_amended_log_discipline {w : World} {q : String → Option String}
    {m : String → Option K8sJob} {st : CronState} {k : JobKey}
    {st2 : CronState} {evs : List Event} {cr : Bool}
    (hevs : processInProgressJob w q m st k = (st2, evs, cr)) :
    (∀ c, (c = JobCode.enqueueFailed ∨ c = JobCode.workerOOM ∨
      c = JobCode.workerError ∨ c = JobCode.unexpectedError) →
      Event.setStatus k c ∈ evs →
      ∃ m2, List.Sublist [Event.log k m2, Event.setStatus k c] evs) ∧
    (∀ c, (c = JobCode.succeeded ∨ c = JobCode.completedWithFailures) →
      Event.setStatus k c ∈ evs → ∀ m2, Event.log k m2 ∉ evs) ∧
    (Event.setStatus k JobCode.timedOut ∈ evs →
      ∃ m2, List.Sublist [Event.setStatus k JobCode.timedOut, Event.log k m2] evs) := by
  simp only [processInProgressJob] at hevs
  repeat' split at hevs
  all_goals try (injection hevs with ha hbc; injection hbc with hb hc; subst hb)
  · exact ⟨fun c hc hm => absurd hm (by simp),
      fun c hc hm => absurd hm (by simp), fun hm => absurd hm (by simp)⟩
  · exact ⟨fun c hc hm => absurd hm (by simp),
      fun c hc hm => absurd hm (by simp), fun hm => absurd hm (by simp)⟩
  · rename_i hne
    have h5 := ev1_c5 (k := k) hne (fun c => List.not_mem_nil _)
    simp only [List.append_nil] at h5
    exact h5
  · exact ⟨fun c hc hm => absurd hm (by simp),
      fun c hc hm => absurd hm (by simp), fun hm => absurd hm (by simp)⟩
  · rename_i hne
    exact ev1_c5 hne (fun c => by simp)
  · simp only [List.nil_append]
    exact ⟨fun c hc hm => absurd hm (by simp),
      fun c hc hm => absurd hm (by simp), fun hm => absurd hm (by simp)⟩
  · rename_i hne
    exact ev1_c5_timeout hne
  · simp only [List.nil_append]
    refine ⟨?_, ?_, ?_⟩
    · intro c hc hm
      simp at hm
      subst hm
      rcases hc with hc | hc | hc | hc <;> exact JobCode.noConfusion hc
    · intro c hc hm
      simp at hm
      subst hm
      rcases hc with hc | hc <;> exact JobCode.noConfusion hc
    · intro hm
      exact ⟨timeoutMessage _, sublist_13_of_123 _ _ _⟩
  · rename_i hne
    have h5 := ev1_c5 (k := k) hne (fun c => List.not_mem_nil _)
    simp only [List.append_nil] at h5
    exact h5
  · exact ⟨fun c hc hm => absurd hm (by simp),
      fun c hc hm => absurd hm (by simp), fun hm => absurd hm (by simp)⟩
  · rename_i x0 js hjs hip val hqu x1 stA spA hspec htmo hrun x2 jtd2 evsC2 heqC hne
    rcases hmk : m k.id with _ | kj
    · rw [hmk] at heqC
      rw [checkIfJobCompleted_nilJob] at heqC
      exact Option.noConfusion heqC
    · rw [hqu, hmk] at hne
      rw [reconcile_running_intact hrun] at hne
      exact absurd rfl hne
  · rename_i heqC hnot
    simp only [List.nil_append]
    exact ⟨(checkIfJobCompleted_c5 heqC).1, (checkIfJobCompleted_c5 heqC).2.1,
      fun hm => absurd hm (checkIfJobCompleted_c5 heqC).2.2⟩
  · rename_i hne
    have h5 := ev1_c5 (k := k) hne (fun c => List.not_mem_nil _)
    simp only [List.append_nil] at h5
    exact h5
  · exact ⟨fun c hc hm => absurd hm (by simp),
      fun c hc hm => absurd hm (by simp), fun hm => absurd hm (by simp)⟩

theorem processInProgressJob_missingQueue {w : World} {q : String → Option String}
    {m : String → Option K8sJob} {st : CronState} {k : JobKey} {js : JobState}
    (hjs : w.getJobState k = some js) (hkey : js.jobKey = k)
    (hrun : js.status = JobCode.running)
    (hq : q k.id = none)
    (hg : ¬(w.now - js.lastUpdated JobCode.enqueuing.string ≤ doesQueueExistGracePeriod)) :
    processInProgressJob w q m st k =
      (st, [Event.log k (queueMissingMessage w k),
            Event.setStatus k JobCode.unexpectedError], false) := by
  have hrec : reconcileInProgressJob w js none (m k.id) =
      (JobCode.unexpectedError, queueMissingMessage w k) := by
    simp only [reconcileInProgressJob]
    rw [if_neg hg, hkey]
  have hip : js.status.isInProgress = true := by
    rw [hrun]
    rfl
  simp only [processInProgressJob, hjs, hip, hq, hrec]
  simp [hrun]

theorem mem_inProgressIDs {w : World} {k : JobKey}
    (h : k ∈ w.inProgressJobKeys) : k.id ∈ inProgressIDs w :=
  List.mem_dedup.mpr (List.mem_map_of_mem JobKey.id h)

/-- C6 (amended): a Running job whose queue is absent past the queue-existence grace period gets UnexpectedError persisted, with the queue-not-found message logged, in a single pass, but the same pass does not delete its runtime resources; deletion happens on a later pass through the terminal-status branch. -/
theorem C6_amended_no_same_pass_delete {w : World} {st st' : CronState} {evs : List Event}
    {k : JobKey} {js : JobState}
    (hpass : ManageJobResources w st = some (st', evs))
    (hk : k ∈ w.inProgressJobKeys)
    (hjs : w.getJobState k = some js)
    (hkey : js.jobKey = k)
    (hrun : js.status = JobCode.running)
    (hq : buildQueueURLMap w k.id = none)
    (hg : ¬(w.now - js.lastUpdated JobCode.enqueuing.string ≤ doesQueueExistGracePeriod))
    (horph : ∀ j ∈ w.k8sJobs, j.labelJobID ∈ w.inProgressJobKeys.map JobKey.id) :
    Event.log k (queueMissingMessage w k) ∈ evs ∧
    Event.setStatus k JobCode.unexpectedError ∈ evs ∧
    Event.deleteRuntime k ∉ evs := by
  rcases manage_decomp hpass with ⟨st1, evs1, hproc, hst, hevs⟩
  have hAempty : gcOrphanBatches (buildK8sJobMap w.k8sJobs) (k8sJobIDs w)
      (inProgressIDs w) = [] := by
    refine gcOrphanBatches_empty ?_
    intro x hx
    unfold k8sJobIDs at hx
    rcases List.mem_map.mp (List.mem_dedup.mp hx) with ⟨j, hj, hjx⟩
    rw [← hjx]
    exact List.mem_dedup.mpr (horph j hj)
  refine ⟨?_, ?_, ?_⟩
  · rcases processAll_segment hproc hk with ⟨stMid, stB, evs2, cr, hpj, hsub⟩
    rw [processInProgressJob_missingQueue hjs hkey hrun hq hg] at hpj
    injection hpj with h1 h2
    injection h2 with h3 h4
    rw [hevs]
    refine List.mem_append.mpr (Or.inl (List.mem_append.mpr (Or.inl (hsub _ ?_))))
    rw [← h3]
    simp
  · rcases processAll_segment hproc hk with ⟨stMid, stB, evs2, cr, hpj, hsub⟩
    rw [processInProgressJob_missingQueue hjs hkey hrun hq hg] at hpj
    injection hpj with h1 h2
    injection h2 with h3 h4
    rw [hevs]
    refine List.mem_append.mpr (Or.inl (List.mem_append.mpr (Or.inl (hsub _ ?_))))
    rw [← h3]
    simp
  · intro hmem
    rw [hevs] at hmem
    rcases List.mem_append.mp hmem with h1 | h1
    · rcases List.mem_append.mp h1 with h2 | h2
      · rcases processAll_origin hproc h2 with ⟨stMid, j, stB, evs2, cr, hj, hpj, he2⟩
        have hkj : j = k := by
          have := processInProgressJob_key hpj he2
          rw [← this]
          rfl
        subst hkj
        rw [processInProgressJob_missingQueue hjs hkey hrun hq hg] at hpj
        injection hpj with h3 h4
        injection h4 with h5 h6
        rw [← h5] at he2
        simp at he2
      · rw [hAempty] at h2
        simp at h2
    · rcases gcOrphanQueues_shape h1 with ⟨id, url, hidq, hidk, hidi, hqm, hts, hkk⟩
      have hkid : k.id = id := by
        have h7 := (buildQueueURLMap_some hqm).2
        have h8 : k = w.jobKeyFromQueueURL url := Event.deleteRuntime.inj hkk
        rw [h8]
        exact h7
      exact hidi (hkid ▸ mem_inProgressIDs hk)

theorem mem_queueJobIDs {w : World} {id url : String}
    (h : buildQueueURLMap w id = some url) : id ∈ queueJobIDs w := by
  rcases buildQueueURLMap_some h with ⟨h1, h2⟩
  unfold queueJobIDs
  refine List.mem_dedup.mpr ?_
  refine List.mem_map.mpr ⟨url, h1, h2⟩

/-- C8: for a queue ID listed in Queues but in neither Batches nor InProgress, the pass deletes the runtime resources of the job key derived from the queue URL when the created timestamp is older than the grace period, and performs no deletion carrying that ID when the timestamp is within the grace period. -/
theorem C8_orphan_queue_grace {w : World} {st st' : CronState} {evs : List Event} {id url : String}
    (hpass : ManageJobResources w st = some (st', evs))
    (hq : buildQueueURLMap w id = some url)
    (hk : id ∉ w.k8sJobs.map K8sJob.labelJobID)
    (hi : id ∉ w.inProgressJobKeys.map JobKey.id) :
    (¬(w.now - queueCreatedTimestamp w url ≤ doesQueueExistGracePeriod) →
      Event.deleteRuntime (w.jobKeyFromQueueURL url) ∈ evs) ∧
    ((w.now - queueCreatedTimestamp w url ≤ doesQueueExistGracePeriod) →
      ∀ kk : JobKey, kk.id = id → Event.deleteRuntime kk ∉ evs) := by
  rcases manage_decomp hpass with ⟨st1, evs1, hproc, hst, hevs⟩
  have hknot : id ∉ k8sJobIDs w := fun hmem =>
    hk (List.mem_dedup.mp hmem)
  have hinot : id ∉ inProgressIDs w := fun hmem =>
    hi (List.mem_dedup.mp hmem)
  constructor
  · intro hts
    rw [hevs]
    refine List.mem_append.mpr (Or.inr ?_)
    exact gcOrphanQueues_mem (mem_queueJobIDs hq) hknot hinot hq hts
  · intro hts kk hkid hmem
    rw [hevs] at hmem
    rcases List.mem_append.mp hmem with h1 | h1
    · rcases List.mem_append.mp h1 with h2 | h2
      · rcases processAll_origin hproc h2 with ⟨stMid, j, stB, evs2, cr, hj, hpj, he2⟩
        have hkj : kk = j := processInProgressJob_key hpj he2
        refine hi ?_
        rw [← hkid, hkj]
        exact List.mem_map_of_mem JobKey.id hj
      · rcases gcOrphanBatches_key h2 with ⟨kJob, hkJ, hkk⟩
        have : kk.id = kJob.labelJobID := by
          rw [Event.deleteRuntime.inj hkk]
        refine hk ?_
        rw [← hkid, this]
        exact List.mem_map_of_mem K8sJob.labelJobID hkJ
    · rcases gcOrphanQueues_shape h1 with ⟨id2, url2, hidq, hidk, hidi, hqm, hts2, hkk⟩
      have hkid2 : kk.id = id2 := by
        rw [Event.deleteRuntime.inj hkk]
        exact (buildQueueURLMap_some hqm).2
      have hid2 : id2 = id := by
        rw [← hkid2, hkid]
      rw [hid2] at hqm
      rw [hqm] at hq
      injection hq with hurl
      rw [← hurl] at hts
      exact hts2 hts

/-- C10: when the CreatedTimestamp of an orphan queue cannot be read, the creation time falls back to the zero time, so for any clock value past the grace period the queue counts as old and its runtime resources are deleted in the same pass. -/
theorem C10_unreadable_timestamp_deleted {w : World} {st st' : CronState} {evs : List Event} {id url : String}
    (hpass : ManageJobResources w st = some (st', evs))
    (hq : buildQueueURLMap w id = some url)
    (hk : id ∉ w.k8sJobs.map K8sJob.labelJobID)
    (hi : id ∉ w.inProgressJobKeys.map JobKey.id)
    (hts : w.queueCreatedTsOf url = none)
    (hnow : doesQueueExistGracePeriod < w.now) :
    Event.deleteRuntime (w.jobKeyFromQueueURL url) ∈ evs := by
  rcases manage_decomp hpass with ⟨st1, evs1, hproc, hst, hevs⟩
  have hts0 : queueCreatedTimestamp w url = 0 := by
    unfold queueCreatedTimestamp
    rw [hts]
  rw [hevs]
  refine List.mem_append.mpr (Or.inr ?_)
  refine gcOrphanQueues_mem (mem_queueJobIDs hq)
    (fun hmem => hk (List.mem_dedup.mp hmem))
    (fun hmem => hi (List.mem_dedup.mp hmem)) hq ?_
  rw [hts0]
  omega

/-- C1 is false as stated: at a concrete input meeting every precondition of the claim, the first classifier invocation persists Succeeded immediately instead of merely adding the ID to DeferredDelete. -/
theorem C1_counterexample : checkIfJobCompleted W1 A "qa" (some KJ1) [] =
    some ([], [Event.setStatus A JobCode.succeeded, Event.deleteRuntime A]) := rfl

/-- C2: the claimed safety property fails on the code. A concrete world with one in-progress Running job, a listed queue, and no orchestrator batch (the job entered Running within the batch-existence grace period) drives the pass into the completion classifier with a nil batch; the first read of batch.Failed dereferences nil, modelled as the pass returning none. -/
theorem C2_nil_batch_crash :
    (W2.getJobState A).map JobState.status = some JobCode.running ∧
    buildQueueURLMap W2 A.id = some "qa" ∧
    buildK8sJobMap W2.k8sJobs A.id = none ∧
    ManageJobResources W2 ⟨[], []⟩ = none := ⟨rfl, rfl, rfl, rfl⟩

/-- C5 is false as stated: a concrete pass persists the terminal status Succeeded without writing any log line for the job. -/
theorem C5_counterexample : ManageJobResources W5 ⟨[], []⟩ =
    some (⟨[], [("a", BJ1)]⟩,
      [Event.setStatus A JobCode.succeeded, Event.deleteRuntime A]) := rfl

/-- C6 is false as stated: at a concrete input the pass persists UnexpectedError with the queue-not-found message, and its whole event list contains no runtime deletion for the job. -/
theorem C6_counterexample : ManageJobResources W6 ⟨[], []⟩ =
    some (⟨[], []⟩, [Event.log A (queueMissingMessage W6 A),
      Event.setStatus A JobCode.unexpectedError]) := rfl

/-- C7: with batch.Failed > 0 and an OOM-killed pod the classifier delegates to the failure investigator, which persists WorkerOOM and deletes the runtime, but the logged message is the source text with the duplicated words, "... ran out of out of memory", not the claimed "... ran out of memory". -/
theorem C7_oom_message_bug : checkIfJobCompleted W7 A "qa" (some KJF) [] =
    some ([], [Event.log A oomMessage, Event.setStatus A JobCode.workerOOM,
      Event.deleteRuntime A]) ∧
    oomMessage ≠ "at least one worker was killed because it ran out of memory" :=
  ⟨rfl, by decide⟩

/-- C9: the claimed join is wrong in the code. With two listed k8s jobs, the map built from lines 92 to 97 sends the jobID label of the first job to the last listed job, because the Go range loop reuses one loop variable whose address every map entry stores. -/
theorem C9_k8s_job_map_aliasing : buildK8sJobMap [J1, J2] "a" = some J2 ∧ J2 ≠ J1 := ⟨rfl, by decide⟩

/-- Witness for C1 (amended) at a concrete input, with a nonempty deferred set. -/
theorem C1_witness : checkIfJobCompleted W1 A "qa" (some KJ1) ["b"] =
    some (strRemove ["b"] "a",
      [Event.setStatus A JobCode.succeeded, Event.deleteRuntime A]) :=
  C1_amended_immediate_success (show KJ1.status.failed = 0 from rfl)
    (show W1.queueIsEmptyOf "qa" = some true from rfl)
    (show W1.batchMetricsOf A = some 1000 from rfl)
    (show W1.downloadJobSpecOf A = some BJ1 from rfl)
    (show BJ1.workers = KJ1.status.succeeded from rfl)
    (show BJ1.totalBatchCount = 1000 from rfl)
    (by decide)

/-- Witness for C3 at a concrete world with one terminal job. -/
theorem C3_witness :
    (Event.setStatus A JobCode.succeeded ∉
      [Event.deleteInProgressFile A, Event.deleteRuntime A]) ∧
    Event.deleteInProgressFile A ∈
      [Event.deleteInProgressFile A, Event.deleteRuntime A] ∧
    Event.deleteRuntime A ∈
      [Event.deleteInProgressFile A, Event.deleteRuntime A] :=
  ⟨(C3_terminal_status_frozen (show ManageJobResources W3 ⟨[], []⟩ =
      some (⟨[], []⟩, [Event.deleteInProgressFile A, Event.deleteRuntime A]) from rfl)
      (show W3.getJobState A = some ⟨A, JobCode.succeeded, fun _ => 0⟩ from rfl)
      rfl).1 JobCode.succeeded,
   (C3_terminal_status_frozen (show ManageJobResources W3 ⟨[], []⟩ =
      some (⟨[], []⟩, [Event.deleteInProgressFile A, Event.deleteRuntime A]) from rfl)
      (show W3.getJobState A = some ⟨A, JobCode.succeeded, fun _ => 0⟩ from rfl)
      rfl).2 (by decide)⟩

/-- Witness for C4 at a concrete world whose pass leaves one deferred ID. -/
theorem C4_witness : "a" ∈ W4.inProgressJobKeys.map JobKey.id :=
  C4_deferred_subset_inprogress (show ManageJobResources W4 ⟨[], []⟩ =
      some (⟨["a"], [("a", BJ1)]⟩, []) from rfl)
    "a" (by decide)

/-- Witness for C5 (amended): the UnexpectedError write of a concrete job handling is preceded by a log line. -/
theorem C5_witness : ∃ m2, List.Sublist
    [Event.log A m2, Event.setStatus A JobCode.unexpectedError] EV6 :=
  (C5_amended_log_discipline (show processInProgressJob W6 (buildQueueURLMap W6)
      (buildK8sJobMap W6.k8sJobs) ⟨[], []⟩ A = (⟨[], []⟩, EV6, false) from rfl)).1
    JobCode.unexpectedError (Or.inr (Or.inr (Or.inr rfl))) (by decide)

/-- Witness for C6 (amended) at a concrete world. -/
theorem C6_witness :
    Event.log A (queueMissingMessage W6 A) ∈ EV6 ∧
    Event.setStatus A JobCode.unexpectedError ∈ EV6 ∧
    Event.deleteRuntime A ∉ EV6 :=
  C6_amended_no_same_pass_delete (show ManageJobResources W6 ⟨[], []⟩ = some (⟨[], []⟩, EV6) from rfl)
    (by decide)
    (show W6.getJobState A = some ⟨A, JobCode.running, fun _ => 0⟩ from rfl)
    rfl rfl
    (show buildQueueURLMap W6 A.id = none from rfl)
    (by decide)
    (fun j hj => absurd hj (List.not_mem_nil j))

/-- Witness for C8: both halves at concrete worlds, one queue past the grace period and one within it. -/
theorem C8_witness :
    Event.deleteRuntime X ∈ [Event.deleteRuntime X] ∧
    Event.deleteRuntime X ∉ ([] : List Event) :=
  ⟨(C8_orphan_queue_grace (show ManageJobResources W8 ⟨[], []⟩ =
        some (⟨[], []⟩, [Event.deleteRuntime X]) from rfl)
      (show buildQueueURLMap W8 "x" = some "qx" from rfl)
      (by decide) (by decide)).1 (by decide),
   (C8_orphan_queue_grace (show ManageJobResources W8b ⟨[], []⟩ = some (⟨[], []⟩, []) from rfl)
      (show buildQueueURLMap W8b "x" = some "qx" from rfl)
      (by decide) (by decide)).2 (by decide) X rfl⟩

/-- Witness for C10 at a concrete world whose queue has no readable timestamp. -/
theorem C10_witness : Event.deleteRuntime X ∈ [Event.deleteRuntime X] :=
  C10_unreadable_timestamp_deleted (show ManageJobResources W10 ⟨[], []⟩ =
      some (⟨[], []⟩, [Event.deleteRuntime X]) from rfl)
    (show buildQueueURLMap W10 "x" = some "qx" from rfl)
    (by decide) (by decide) rfl (by decide)
